import Mathlib

/-!
Verification of the discrete-event simulation (DES) core driving the
grocery-store model of `Pregunta1y2.py` (class `TiendaComestibles`,
`atender_cliente`, `reabastecer`, `generar_clientes`, `simulacion_tienda`).

The engine primitives (clock, event queue, scheduler, resource pool) are the
`simpy` library, which is not part of the repository's sources; following the
specification they are modelled from the spec's contracts (§3, §4.1-§4.4).
The domain processes are translated directly from `src/Pregunta1y2.py`.

Simulated time is an arbitrary linearly ordered additive commutative group
`K` (the spec only requires an ordered scalar); concrete scenarios
instantiate `K := ℤ`.  Random draws (interarrival and service times) are
injected as external streams `ℕ → K`, as required by spec §6.
-/

namespace Tienda

/-- Modelled from the spec: error taxonomy of §7 (the engine is not under
`src/`).  `invalidDelay` is raised for a negative delay passed to a timeout. -/
inductive SimError where
  | invalidDelay
  | causalityViolation
  | doubleRelease
deriving DecidableEq, Repr

/-- Continuation points of the domain processes of `src/Pregunta1y2.py`:
`genArrive c` is the arrival generator `generar_clientes` waking from its
interarrival timeout with counter `c`; `custStart c` is the body of
`atender_cliente` beginning (line 226); `custAcquired c llegada` is the
resumption after `yield request` (line 230); `custFinish c llegada` is the
resumption after the service timeout (line 239); `restockStart` is the body of
`reabastecer` beginning (line 254) and `restockFinish` its resumption after
the restock timeout (line 255). -/
inductive Cont (K : Type) where
  | genArrive (c : ℕ)
  | custStart (c : ℕ)
  | custAcquired (c : ℕ) (llegada : K)
  | custFinish (c : ℕ) (llegada : K)
  | restockStart
  | restockFinish
deriving DecidableEq

/-- Modelled from the spec: an Event of §3 — `{due_time, sequence_id,
continuation}`, immutable, consumed exactly once. -/
structure Event (K : Type) where
  due : K
  seq : ℕ
  cont : Cont K
deriving DecidableEq

variable {K : Type} [LinearOrderedAddCommGroup K]

/-- Modelled from the spec: the event ordering of §3 — primary key `due_time`
ascending, secondary key `sequence_id` ascending. -/
def evLE (a b : Event K) : Prop :=
  a.due < b.due ∨ (a.due = b.due ∧ a.seq ≤ b.seq)

instance evLE.decidable (a b : Event K) : Decidable (evLE a b) := by
  unfold evLE; infer_instance

/-- Modelled from the spec: `pop_next()` of §4.1 — removes and returns the
earliest event by the ordering of §3, or `none` if the queue is empty. -/
def popNext : List (Event K) → Option (Event K × List (Event K))
  | [] => none
  | e :: es =>
    match popNext es with
    | none => some (e, [])
    | some (m, rest) => if evLE e m then some (e, es) else some (m, e :: rest)

/-- State of `TiendaComestibles` (`src/Pregunta1y2.py` lines 211-223): stock
and the accumulator counters, plus the restock parameters.  `empieza_log`
models the "comienza a ser atendido" print of line 233 as a list of
(customer, time) pairs, recording the order in which service begins. -/
structure TiendaComestibles (K : Type) where
  stock : ℕ
  umbral_reabastecimiento : ℕ
  lote_reabastecimiento : ℕ
  tiempo_reabastecimiento : K
  clientes_atendidos : ℕ
  clientes_sin_stock : ℕ
  tiempos_espera : List K
  tiempos_total : List K
  veces_sin_stock : ℕ
  reabastecimientos : ℕ
  empieza_log : List (ℕ × K)
deriving DecidableEq

/-- Modelled from the spec: the ResourcePool of §3/§4.3 (`simpy.Resource`,
line 213 of the source): finite capacity, an in-use count and a FIFO wait
queue.  A waiting request records the customer id and its arrival time. -/
structure Caja (K : Type) where
  capacity : ℕ
  in_use : ℕ
  wait_queue : List (ℕ × K)
deriving DecidableEq

/-- Modelled from the spec: the Environment of §4.4 — the clock `now`, the
time-ordered event queue, the next `sequence_id`, the injected draw streams
(§6) with their consumption indices, and the domain state.  `resumedLog`
records the due time of every resumed event (ghost instrumentation used to
state the never-resumes-past-`until` property of §8). -/
structure SimState (K : Type) where
  now : K
  queue : List (Event K)
  nextSeq : ℕ
  arrivalDraw : ℕ → K
  arrivalIdx : ℕ
  serviceDraw : ℕ → K
  serviceIdx : ℕ
  tienda : TiendaComestibles K
  caja : Caja K
  resumedLog : List K

/-- Modelled from the spec: unchecked insertion of an event at `now + d` with
the next sequence id (the success branch of `schedule`, §4.1). -/
def pushEvent (d : K) (c : Cont K) (s : SimState K) : SimState K :=
  { s with queue := s.queue ++ [⟨s.now + d, s.nextSeq, c⟩], nextSeq := s.nextSeq + 1 }

/-- Modelled from the spec: `schedule(delay, continuation)` of §4.1 — inserts
an event at `now + delay`; fails with `InvalidDelay` if `delay < 0`. -/
def schedule (d : K) (c : Cont K) (s : SimState K) : Except SimError (SimState K) :=
  if d < 0 then .error .invalidDelay else .ok (pushEvent d c s)

/-- Restock trigger of `atender_cliente` (lines 250-251): if the stock is
below the threshold, spawn `reabastecer` as a new process at the current
instant. -/
def maybeRestock (s : SimState K) : SimState K :=
  if s.tienda.stock < s.tienda.umbral_reabastecimiento then
    pushEvent 0 .restockStart s
  else s

/-- Modelled from the spec: `release` of §4.3, reached at the exit of the
`with self.caja.request()` block (line 229): if the wait queue is non-empty
the earliest waiter is granted the freed slot atomically at the same instant
(its continuation is scheduled at delay 0 and `in_use` is unchanged);
otherwise `in_use` is decremented. -/
def releaseCaja (s : SimState K) : SimState K :=
  match s.caja.wait_queue with
  | [] => { s with caja := { s.caja with in_use := s.caja.in_use - 1 } }
  | (c, ll) :: ws =>
      pushEvent 0 (.custAcquired c ll) { s with caja := { s.caja with wait_queue := ws } }

/-- Body of `atender_cliente` after `yield request` (lines 231-251): record
the wait time and the "comienza" print; if stock is positive, decrement it,
draw a service time and schedule the service timeout; otherwise count the
customer as unserved (both counters, lines 245-246), check the restock
threshold and release the register — all at the same instant. -/
def atenderAcquired (c : ℕ) (ll : K) (s : SimState K) : Except SimError (SimState K) :=
  let espera := s.now - ll
  let s1 := { s with tienda := { s.tienda with
                tiempos_espera := s.tienda.tiempos_espera ++ [espera],
                empieza_log := s.tienda.empieza_log ++ [(c, s.now)] } }
  if 0 < s1.tienda.stock then
    let d := s1.serviceDraw s1.serviceIdx
    let s2 := { s1 with tienda := { s1.tienda with stock := s1.tienda.stock - 1 },
                        serviceIdx := s1.serviceIdx + 1 }
    schedule d (.custFinish c ll) s2
  else
    let s2 := { s1 with tienda := { s1.tienda with
                  clientes_sin_stock := s1.tienda.clientes_sin_stock + 1,
                  veces_sin_stock := s1.tienda.veces_sin_stock + 1 } }
    .ok (releaseCaja (maybeRestock s2))

/-- Body of `atender_cliente` after the service timeout (lines 240-251):
count the customer as served, record the total time, check the restock
threshold and release the register. -/
def atenderFinish (ll : K) (s : SimState K) : SimState K :=
  let total := s.now - ll
  let s1 := { s with tienda := { s.tienda with
                clientes_atendidos := s.tienda.clientes_atendidos + 1,
                tiempos_total := s.tienda.tiempos_total ++ [total] } }
  releaseCaja (maybeRestock s1)

/-- Resume one continuation at the current instant.  `genArrive c` follows
`generar_clientes` (lines 260-265): spawn customer `c` (except on the very
first wake-up, which models the generator's start), then draw the next
interarrival time and reschedule itself.  `custStart` follows the
`self.caja.request()` of line 229: grant immediately at the same instant if
capacity is free, else enqueue FIFO.  `restockStart`/`restockFinish` follow
`reabastecer` (lines 253-258). -/
def resume (c : Cont K) (s : SimState K) : Except SimError (SimState K) :=
  match c with
  | .genArrive n =>
      let s1 := if n = 0 then s else pushEvent 0 (.custStart n) s
      let d := s1.arrivalDraw s1.arrivalIdx
      schedule d (.genArrive (n + 1)) { s1 with arrivalIdx := s1.arrivalIdx + 1 }
  | .custStart n =>
      if s.caja.in_use < s.caja.capacity then
        .ok (pushEvent 0 (.custAcquired n s.now)
              { s with caja := { s.caja with in_use := s.caja.in_use + 1 } })
      else
        .ok { s with caja := { s.caja with
                wait_queue := s.caja.wait_queue ++ [(n, s.now)] } }
  | .custAcquired n ll => atenderAcquired n ll s
  | .custFinish _ ll => .ok (atenderFinish ll s)
  | .restockStart => schedule s.tienda.tiempo_reabastecimiento .restockFinish s
  | .restockFinish =>
      .ok { s with tienda := { s.tienda with
              stock := s.tienda.stock + s.tienda.lote_reabastecimiento,
              reabastecimientos := s.tienda.reabastecimientos + 1 } }

/-- Modelled from the spec: `run(until)` of §4.4 — drain the event queue in
time order, advancing `now` to each popped event's due time, until the queue
is empty or the next event's time exceeds `until`; in the latter case `now`
is set exactly to `until` and the remaining events are left pending.  A
failure inside a resumed continuation aborts the run and is surfaced to the
caller (§7).  `fuel` bounds the number of drained events (the arrival
generator is an infinite process). -/
def runUntil : ℕ → K → SimState K → Except SimError (SimState K)
  | 0, _, s => .ok s
  | fuel + 1, T, s =>
    match popNext s.queue with
    | none => .ok s
    | some (e, rest) =>
      if T < e.due then .ok { s with now := T }
      else
        match resume e.cont { s with queue := rest, now := e.due,
                                     resumedLog := s.resumedLog ++ [e.due] } with
        | .error err => .error err
        | .ok s' => runUntil fuel T s'

/-- Parameters of `simulacion_tienda` (line 267); the arrival rate is folded
into the injected interarrival draw stream (§6). -/
structure SimParams (K : Type) where
  tiempo_simulacion : K
  num_cajas : ℕ
  stock_inicial : ℕ
  umbral_reabastecimiento : ℕ
  lote_reabastecimiento : ℕ
  tiempo_reabastecimiento : K
deriving DecidableEq

/-- Constructor of `TiendaComestibles` (lines 211-223): all counters start at
0 and all sample lists empty. -/
def initTienda (p : SimParams K) : TiendaComestibles K :=
  { stock := p.stock_inicial
    umbral_reabastecimiento := p.umbral_reabastecimiento
    lote_reabastecimiento := p.lote_reabastecimiento
    tiempo_reabastecimiento := p.tiempo_reabastecimiento
    clientes_atendidos := 0
    clientes_sin_stock := 0
    tiempos_espera := []
    tiempos_total := []
    veces_sin_stock := 0
    reabastecimientos := 0
    empieza_log := [] }

/-- Initial environment of `simulacion_tienda` (lines 268-270): a fresh clock
at 0, the store state, an idle register pool of the given capacity, and the
arrival generator registered as the single initial process (its start event
at time 0 with sequence id 0). -/
def initSim (p : SimParams K) (aDraw sDraw : ℕ → K) : SimState K :=
  { now := 0
    queue := [⟨0, 0, .genArrive 0⟩]
    nextSeq := 1
    arrivalDraw := aDraw
    arrivalIdx := 0
    serviceDraw := sDraw
    serviceIdx := 0
    tienda := initTienda p
    caja := { capacity := p.num_cajas, in_use := 0, wait_queue := [] }
    resumedLog := [] }

/-- `simulacion_tienda` (lines 267-271): build the environment and run it
until `tiempo_simulacion`. -/
def simulacionTienda (p : SimParams K) (aDraw sDraw : ℕ → K) (fuel : ℕ) :
    Except SimError (SimState K) :=
  runUntil fuel p.tiempo_simulacion (initSim p aDraw sDraw)

/-- Projection of a field of the final state of a run, `none` on an aborted
run. -/
def okProj {α : Type} (f : SimState K → α) : Except SimError (SimState K) → Option α
  | .ok s => some (f s)
  | .error _ => none

/-- Parameters of Scenario A of §8: one register, effectively unlimited stock
(threshold 0, so no restock is ever spawned), horizon long enough to serve
both customers. -/
def paramsA : SimParams ℤ :=
  { tiempo_simulacion := 20, num_cajas := 1, stock_inicial := 1000000
    umbral_reabastecimiento := 0, lote_reabastecimiento := 50
    tiempo_reabastecimiento := 15 }

/-- Interarrival draws of Scenario A: customers at t = 0 and t = 1, the third
arrival far beyond the horizon. -/
def drawsAarr : ℕ → ℤ :=
  fun n => if n = 0 then 0 else if n = 1 then 1 else 1000000

/-- Service draws of Scenario A: every service takes 5 time units. -/
def drawsAsrv : ℕ → ℤ := fun _ => 5

/-- Final state of Scenario A. -/
def scenarioA : Except SimError (SimState ℤ) := simulacionTienda paramsA drawsAarr drawsAsrv 12

/-- Parameters of Scenario C of §8: stock 5 below threshold 10, lot 50,
restock delay 15. -/
def paramsC : SimParams ℤ :=
  { tiempo_simulacion := 30, num_cajas := 1, stock_inicial := 5
    umbral_reabastecimiento := 10, lote_reabastecimiento := 50
    tiempo_reabastecimiento := 15 }

/-- Interarrival draws of Scenario C: a single arrival at t = 0. -/
def drawsCarr : ℕ → ℤ := fun n => if n = 0 then 0 else 1000000

/-- Service draws of Scenario C: service takes 2 time units. -/
def drawsCsrv : ℕ → ℤ := fun _ => 2

/-- Final state of Scenario C. -/
def scenarioC : Except SimError (SimState ℤ) := simulacionTienda paramsC drawsCarr drawsCsrv 10

/-- Modelled from the spec: the sequence of events returned by repeatedly
calling `pop_next()` (§4.1); `fuel` bounds the number of pops. -/
def drainF : ℕ → List (Event K) → List (Event K)
  | 0, _ => []
  | fuel + 1, q =>
    match popNext q with
    | none => []
    | some (e, rest) => e :: drainF fuel rest

/-- Modelled from the spec: the full drain of a queue through `pop_next()`
(each pop removes exactly one event, so the queue length bounds the number of
pops). -/
def drain (q : List (Event K)) : List (Event K) := drainF q.length q

/-- Modelled from the spec: the observable effect of one `release` (§4.3) on
the pool — either no waiter existed and the in-use count drops by one, or the
earliest waiter was dequeued and the in-use count is unchanged (the freed
slot is transferred to it). -/
def releasedFrom (c c' : Caja K) : Prop :=
  c'.capacity = c.capacity ∧
  ((c.wait_queue = [] ∧ c'.in_use = c.in_use - 1 ∧ c'.wait_queue = []) ∨
   (∃ w ws, c.wait_queue = w :: ws ∧ c'.in_use = c.in_use ∧ c'.wait_queue = ws))

/-- Fresh environment with no scheduled events (Scenario D of §8): clock at
0, empty queue, no registered process. -/
def emptyEnv : SimState ℤ :=
  { now := 0
    queue := []
    nextSeq := 0
    arrivalDraw := fun _ => 0
    arrivalIdx := 0
    serviceDraw := fun _ => 0
    serviceIdx := 0
    tienda := initTienda ⟨0, 1, 100, 0, 50, 15⟩
    caja := { capacity := 1, in_use := 0, wait_queue := [] }
    resumedLog := [] }

/-- Event list exercising the tie-breaking order: two events due at time 1
with sequence ids 0 and 1, one later event. -/
def qW : List (Event ℤ) :=
  [⟨3, 2, .restockFinish⟩, ⟨1, 0, .restockStart⟩, ⟨1, 1, .restockFinish⟩]

/-- Environment with a full register (capacity 1, one slot in use) and one
customer waiting, used to exercise the FIFO branch. -/
def waitEnv : SimState ℤ :=
  { emptyEnv with caja := { capacity := 1, in_use := 1, wait_queue := [(2, 1)] } }

/-- State reached by the out-of-stock branch of `atender_cliente` (lines
231-246) just before the restock check and the release: wait time and
"comienza" print recorded, both unserved counters incremented. -/
def sinStockState (n : ℕ) (ll : K) (s : SimState K) : SimState K :=
  { s with tienda := { s.tienda with
      tiempos_espera := s.tienda.tiempos_espera ++ [s.now - ll],
      empieza_log := s.tienda.empieza_log ++ [(n, s.now)],
      clientes_sin_stock := s.tienda.clientes_sin_stock + 1,
      veces_sin_stock := s.tienda.veces_sin_stock + 1 } }

/-- Environment with zero stock and the register held by the arriving
customer, exercising the out-of-stock branch. -/
def noStockEnv : SimState ℤ :=
  { emptyEnv with
    tienda := initTienda ⟨0, 1, 0, 0, 50, 15⟩
    caja := { capacity := 1, in_use := 1, wait_queue := [] } }

/-- Environment whose single pending event is a restock start with a negative
configured restock delay, so resuming it raises `InvalidDelay`. -/
def badEnv : SimState ℤ :=
  { emptyEnv with
    queue := [⟨0, 0, .restockStart⟩]
    tienda := initTienda ⟨0, 1, 100, 0, 50, -1⟩ }

/-! ### Properties of the event-queue ordering -/

theorem evLE_refl (a : Event K) : evLE a a := Or.inr ⟨rfl, le_refl _⟩

theorem evLE_trans {a b c : Event K} (hab : evLE a b) (hbc : evLE b c) : evLE a c := by
  rcases hab with h | ⟨he, hs⟩ <;> rcases hbc with h' | ⟨he', hs'⟩
  · exact Or.inl (lt_trans h h')
  · exact Or.inl (he' ▸ h)
  · exact Or.inl (he ▸ h')
  · exact Or.inr ⟨he.trans he', hs.trans hs'⟩

theorem evLE_total (a b : Event K) : evLE a b ∨ evLE b a := by
  rcases lt_trichotomy a.due b.due with h | h | h
  · exact Or.inl (Or.inl h)
  · rcases Nat.le_total a.seq b.seq with hs | hs
    · exact Or.inl (Or.inr ⟨h, hs⟩)
    · exact Or.inr (Or.inr ⟨h.symm, hs⟩)
  · exact Or.inr (Or.inl h)

theorem popNext_eq_none {q : List (Event K)} : popNext q = none ↔ q = [] := by
  cases q with
  | nil => simp [popNext]
  | cons e es =>
    simp only [popNext]
    constructor
    · intro h
      cases hes : popNext (K := K) es with
      | none => rw [hes] at h; simp at h
      | some p => rw [hes] at h; obtain ⟨m, rest⟩ := p; dsimp at h; split at h <;> simp at h
    · intro h; simp at h

theorem popNext_perm {q rest : List (Event K)} {e : Event K}
    (h : popNext q = some (e, rest)) : q.Perm (e :: rest) := by
  induction q generalizing e rest with
  | nil => simp [popNext] at h
  | cons a as ih =>
    simp only [popNext] at h
    cases has : popNext (K := K) as with
    | none =>
      rw [has] at h
      simp at h
      obtain ⟨rfl, rfl⟩ := h
      rw [popNext_eq_none.mp has]
    | some p =>
      obtain ⟨m, r⟩ := p
      rw [has] at h
      dsimp at h
      split at h
      · simp at h
        obtain ⟨rfl, rfl⟩ := h
        exact List.Perm.refl _
      · simp at h
        obtain ⟨rfl, rfl⟩ := h
        exact ((ih has).cons a).trans (List.Perm.swap m a r)

theorem popNext_min {q rest : List (Event K)} {e : Event K}
    (h : popNext q = some (e, rest)) : ∀ x ∈ rest, evLE e x := by
  induction q generalizing e rest with
  | nil => simp [popNext] at h
  | cons a as ih =>
    simp only [popNext] at h
    cases has : popNext (K := K) as with
    | none =>
      rw [has] at h
      simp at h
      obtain ⟨rfl, rfl⟩ := h
      intro x hx
      simp at hx
    | some p =>
      obtain ⟨m, r⟩ := p
      rw [has] at h
      dsimp at h
      split at h
      case isTrue hle =>
        simp at h
        obtain ⟨rfl, rfl⟩ := h
        intro x hx
        rcases List.mem_cons.mp ((popNext_perm has).mem_iff.mp hx) with heq | hx'
        · subst heq; exact hle
        · exact evLE_trans hle (ih has x hx')
      case isFalse hnle =>
        simp at h
        obtain ⟨rfl, rfl⟩ := h
        intro x hx
        rcases List.mem_cons.mp hx with heq | hx'
        · subst heq
          exact (evLE_total _ _).resolve_left hnle
        · exact ih has x hx'

theorem popNext_length {q rest : List (Event K)} {e : Event K}
    (h : popNext q = some (e, rest)) : rest.length + 1 = q.length := by
  have := (popNext_perm h).length_eq
  simpa using this.symm

theorem drainF_subset (fuel : ℕ) (q : List (Event K)) : ∀ x ∈ drainF fuel q, x ∈ q := by
  induction fuel generalizing q with
  | zero => intro x hx; simp [drainF] at hx
  | succ fuel ih =>
    intro x hx
    simp only [drainF] at hx
    cases hpop : popNext q with
    | none => rw [hpop] at hx; simp at hx
    | some p =>
      obtain ⟨e, rest⟩ := p
      rw [hpop] at hx
      rcases List.mem_cons.mp hx with heq | hx'
      · subst heq
        exact (popNext_perm hpop).symm.subset (List.mem_cons_self _ _)
      · exact (popNext_perm hpop).symm.subset (List.mem_cons_of_mem _ (ih rest x hx'))

theorem drainF_pairwise (fuel : ℕ) (q : List (Event K)) : (drainF fuel q).Pairwise evLE := by
  induction fuel generalizing q with
  | zero => simp [drainF]
  | succ fuel ih =>
    simp only [drainF]
    cases hpop : popNext q with
    | none => exact List.Pairwise.nil
    | some p =>
      obtain ⟨e, rest⟩ := p
      refine List.Pairwise.cons ?_ (ih rest)
      intro x hx
      exact popNext_min hpop x (drainF_subset fuel rest x hx)

theorem drain_pairwise (q : List (Event K)) : (drain q).Pairwise evLE :=
  drainF_pairwise q.length q

/-! ### Frame lemmas about resuming one continuation -/

theorem schedule_ok {d : K} {c : Cont K} {s s' : SimState K}
    (h : schedule d c s = .ok s') : s' = pushEvent d c s ∧ 0 ≤ d := by
  unfold schedule at h
  split at h
  · exact absurd h (by simp)
  · exact ⟨by injection h with h'; exact h'.symm, le_of_not_lt (by assumption)⟩

theorem resume_ok_now {c : Cont K} {s s' : SimState K}
    (h : resume c s = .ok s') : s'.now = s.now := by
  cases c <;>
    simp only [resume, atenderAcquired, atenderFinish, maybeRestock, releaseCaja,
      schedule, pushEvent] at h <;>
    (repeat' split at h) <;>
    (try cases h) <;> (try rfl)

theorem resume_ok_resumedLog {c : Cont K} {s s' : SimState K}
    (h : resume c s = .ok s') : s'.resumedLog = s.resumedLog := by
  cases c <;>
    simp only [resume, atenderAcquired, atenderFinish, maybeRestock, releaseCaja,
      schedule, pushEvent] at h <;>
    (repeat' split at h) <;>
    (try cases h) <;> (try rfl)

theorem resume_ok_capacity {c : Cont K} {s s' : SimState K}
    (h : resume c s = .ok s') : s'.caja.capacity = s.caja.capacity := by
  cases c <;>
    simp only [resume, atenderAcquired, atenderFinish, maybeRestock, releaseCaja,
      schedule, pushEvent] at h <;>
    (repeat' split at h) <;>
    (try cases h) <;> (try rfl)

theorem resume_ok_queue_mono {c : Cont K} {s s' : SimState K}
    (h : resume c s = .ok s') : ∀ x ∈ s.queue, x ∈ s'.queue := by
  cases c <;>
    simp only [resume, atenderAcquired, atenderFinish, maybeRestock, releaseCaja,
      schedule, pushEvent] at h <;>
    (repeat' split at h) <;>
    (try cases h) <;> intro x hx <;> simp_all

theorem resume_ok_in_use {c : Cont K} {s s' : SimState K}
    (hcap : s.caja.in_use ≤ s.caja.capacity)
    (h : resume c s = .ok s') : s'.caja.in_use ≤ s'.caja.capacity := by
  cases c <;>
    simp only [resume, atenderAcquired, atenderFinish, maybeRestock, releaseCaja,
      schedule, pushEvent] at h <;>
    (repeat' split at h) <;>
    (try cases h) <;> simp_all <;> omega

theorem resume_ok_sin_stock {c : Cont K} {s s' : SimState K}
    (hctr : s.tienda.veces_sin_stock = s.tienda.clientes_sin_stock)
    (h : resume c s = .ok s') :
    s'.tienda.veces_sin_stock = s'.tienda.clientes_sin_stock := by
  cases c <;>
    simp only [resume, atenderAcquired, atenderFinish, maybeRestock, releaseCaja,
      schedule, pushEvent] at h <;>
    (repeat' split at h) <;>
    (try cases h) <;> simp_all

/-! ### Invariants preserved by a whole run -/

theorem runUntil_now_le {fuel : ℕ} {T : K} {s s' : SimState K}
    (hnow : s.now ≤ T) (h : runUntil fuel T s = .ok s') : s'.now ≤ T := by
  induction fuel generalizing s with
  | zero => simp only [runUntil] at h; cases h; exact hnow
  | succ fuel ih =>
    simp only [runUntil] at h
    cases hpop : popNext s.queue with
    | none => rw [hpop] at h; cases h; exact hnow
    | some p =>
      obtain ⟨e, rest⟩ := p
      rw [hpop] at h
      dsimp at h
      split at h
      · cases h; exact le_refl T
      case isFalse hdue =>
        cases hres : resume e.cont ({ s with queue := rest, now := e.due, resumedLog := s.resumedLog ++ [e.due] }) with
        | error err => rw [hres] at h; cases h
        | ok s1 =>
          rw [hres] at h
          refine ih ?_ h
          rw [resume_ok_now hres]
          exact le_of_not_lt hdue

theorem runUntil_log_le {fuel : ℕ} {T : K} {s s' : SimState K}
    (hlog : ∀ x ∈ s.resumedLog, x ≤ T) (h : runUntil fuel T s = .ok s') :
    ∀ x ∈ s'.resumedLog, x ≤ T := by
  induction fuel generalizing s with
  | zero => simp only [runUntil] at h; cases h; exact hlog
  | succ fuel ih =>
    simp only [runUntil] at h
    cases hpop : popNext s.queue with
    | none => rw [hpop] at h; cases h; exact hlog
    | some p =>
      obtain ⟨e, rest⟩ := p
      rw [hpop] at h
      dsimp at h
      split at h
      · cases h; exact hlog
      case isFalse hdue =>
        cases hres : resume e.cont ({ s with queue := rest, now := e.due, resumedLog := s.resumedLog ++ [e.due] }) with
        | error err => rw [hres] at h; cases h
        | ok s1 =>
          rw [hres] at h
          refine ih ?_ h
          rw [resume_ok_resumedLog hres]
          intro x hx
          rcases List.mem_append.mp hx with hx' | hx'
          · exact hlog x hx'
          · rw [List.mem_singleton.mp hx']; exact le_of_not_lt hdue

theorem runUntil_pending {fuel : ℕ} {T : K} {s s' : SimState K}
    (h : runUntil fuel T s = .ok s') :
    ∀ e ∈ s.queue, T < e.due → e ∈ s'.queue := by
  induction fuel generalizing s with
  | zero => simp only [runUntil] at h; cases h; exact fun e he _ => he
  | succ fuel ih =>
    simp only [runUntil] at h
    cases hpop : popNext s.queue with
    | none => rw [hpop] at h; cases h; exact fun e he _ => he
    | some p =>
      obtain ⟨e, rest⟩ := p
      rw [hpop] at h
      dsimp at h
      split at h
      · cases h; exact fun e' he' _ => he'
      case isFalse hdue =>
        cases hres : resume e.cont ({ s with queue := rest, now := e.due, resumedLog := s.resumedLog ++ [e.due] }) with
        | error err => rw [hres] at h; cases h
        | ok s1 =>
          rw [hres] at h
          intro e' he' hlate
          have hne : e' ≠ e := by
            intro heq
            exact hdue (heq ▸ hlate)
          have he'rest : e' ∈ rest := by
            rcases List.mem_cons.mp ((popNext_perm hpop).mem_iff.mp he') with heq | hr
            · exact absurd heq hne
            · exact hr
          have : e' ∈ s1.queue := resume_ok_queue_mono hres e' he'rest
          exact ih h e' this hlate

theorem runUntil_in_use {fuel : ℕ} {T : K} {s s' : SimState K}
    (hcap : s.caja.in_use ≤ s.caja.capacity) (h : runUntil fuel T s = .ok s') :
    s'.caja.in_use ≤ s'.caja.capacity := by
  induction fuel generalizing s with
  | zero => simp only [runUntil] at h; cases h; exact hcap
  | succ fuel ih =>
    simp only [runUntil] at h
    cases hpop : popNext s.queue with
    | none => rw [hpop] at h; cases h; exact hcap
    | some p =>
      obtain ⟨e, rest⟩ := p
      rw [hpop] at h
      dsimp at h
      split at h
      · cases h; exact hcap
      · cases hres : resume e.cont ({ s with queue := rest, now := e.due, resumedLog := s.resumedLog ++ [e.due] }) with
        | error err => rw [hres] at h; cases h
        | ok s1 =>
          rw [hres] at h
          refine ih (resume_ok_in_use ?_ hres) h
          exact hcap

theorem runUntil_sin_stock {fuel : ℕ} {T : K} {s s' : SimState K}
    (hctr : s.tienda.veces_sin_stock = s.tienda.clientes_sin_stock)
    (h : runUntil fuel T s = .ok s') :
    s'.tienda.veces_sin_stock = s'.tienda.clientes_sin_stock := by
  induction fuel generalizing s with
  | zero => simp only [runUntil] at h; cases h; exact hctr
  | succ fuel ih =>
    simp only [runUntil] at h
    cases hpop : popNext s.queue with
    | none => rw [hpop] at h; cases h; exact hctr
    | some p =>
      obtain ⟨e, rest⟩ := p
      rw [hpop] at h
      dsimp at h
      split at h
      · cases h; exact hctr
      · cases hres : resume e.cont ({ s with queue := rest, now := e.due, resumedLog := s.resumedLog ++ [e.due] }) with
        | error err => rw [hres] at h; cases h
        | ok s1 =>
          rw [hres] at h
          refine ih (resume_ok_sin_stock ?_ hres) h
          exact hctr

/-! ### Structure of release and restock steps -/

theorem maybeRestock_caja (s : SimState K) : (maybeRestock s).caja = s.caja := by
  unfold maybeRestock; split <;> rfl

theorem maybeRestock_tienda (s : SimState K) : (maybeRestock s).tienda = s.tienda := by
  unfold maybeRestock; split <;> rfl

theorem maybeRestock_now (s : SimState K) : (maybeRestock s).now = s.now := by
  unfold maybeRestock; split <;> rfl

theorem maybeRestock_nextSeq_queue (s : SimState K) : (maybeRestock s).serviceIdx = s.serviceIdx := by
  unfold maybeRestock; split <;> rfl

theorem maybeRestock_queue_cases (s : SimState K) :
    ∀ e ∈ (maybeRestock s).queue, e ∈ s.queue ∨ (e.due = s.now ∧ e.cont = Cont.restockStart) := by
  unfold maybeRestock
  split
  · intro e he
    simp only [pushEvent, List.mem_append, List.mem_singleton] at he
    rcases he with he | rfl
    · exact Or.inl he
    · exact Or.inr ⟨add_zero s.now, rfl⟩
  · exact fun e he => Or.inl he

theorem releaseCaja_released (s : SimState K) : releasedFrom s.caja (releaseCaja s).caja := by
  unfold releaseCaja
  cases hwq : s.caja.wait_queue with
  | nil => exact ⟨rfl, Or.inl ⟨hwq, rfl, hwq⟩⟩
  | cons w ws =>
    obtain ⟨n, ll⟩ := w
    exact ⟨rfl, Or.inr ⟨(n, ll), ws, hwq, rfl, rfl⟩⟩

theorem releaseCaja_tienda (s : SimState K) : (releaseCaja s).tienda = s.tienda := by
  unfold releaseCaja
  cases s.caja.wait_queue with
  | nil => rfl
  | cons w ws => obtain ⟨n, ll⟩ := w; rfl

theorem releaseCaja_now (s : SimState K) : (releaseCaja s).now = s.now := by
  unfold releaseCaja
  cases s.caja.wait_queue with
  | nil => rfl
  | cons w ws => obtain ⟨n, ll⟩ := w; rfl

theorem releaseCaja_serviceIdx (s : SimState K) : (releaseCaja s).serviceIdx = s.serviceIdx := by
  unfold releaseCaja
  cases s.caja.wait_queue with
  | nil => rfl
  | cons w ws => obtain ⟨n, ll⟩ := w; rfl

theorem releaseCaja_queue_cases (s : SimState K) :
    ∀ e ∈ (releaseCaja s).queue,
      e ∈ s.queue ∨ (e.due = s.now ∧ ∃ n ll, e.cont = Cont.custAcquired n ll) := by
  unfold releaseCaja
  cases s.caja.wait_queue with
  | nil => exact fun e he => Or.inl he
  | cons w ws =>
    obtain ⟨n, ll⟩ := w
    intro e he
    simp only [pushEvent, List.mem_append, List.mem_singleton] at he
    rcases he with he | rfl
    · exact Or.inl he
    · exact Or.inr ⟨add_zero s.now, n, ll, rfl⟩

theorem releaseCaja_fifo (s : SimState K) (n : ℕ) (ll : K) (ws : List (ℕ × K))
    (h : s.caja.wait_queue = (n, ll) :: ws) :
    (releaseCaja s).caja.wait_queue = ws ∧
    (releaseCaja s).caja.in_use = s.caja.in_use ∧
    (releaseCaja s).queue = s.queue ++ [⟨s.now + 0, s.nextSeq, Cont.custAcquired n ll⟩] := by
  unfold releaseCaja
  rw [h]
  exact ⟨rfl, rfl, rfl⟩

/-! ### Claims -/

/-- C1: `run(until = T)` never leaves the clock above `T` (both when the
queue drains and when the run truncates at the first event past `T`), never
resumes a continuation whose due time exceeds `T` (every entry of the ghost
log of resumed due times stays ≤ `T`), and events due after `T` are left
pending in the final queue rather than cancelled. -/
theorem run_until_respects_horizon {fuel : ℕ} {T : K} {s s' : SimState K}
    (hnow : s.now ≤ T) (hlog : ∀ x ∈ s.resumedLog, x ≤ T)
    (hrun : runUntil fuel T s = .ok s') :
    s'.now ≤ T ∧ (∀ x ∈ s'.resumedLog, x ≤ T) ∧
    (∀ e ∈ s.queue, T < e.due → e ∈ s'.queue) :=
  ⟨runUntil_now_le hnow hrun, runUntil_log_le hlog hrun, runUntil_pending hrun⟩

/-- Witness for C1 at a concrete environment. -/
theorem run_until_respects_horizon_witness :
    (emptyEnv.now ≤ (0:ℤ) ∧ (∀ x ∈ emptyEnv.resumedLog, x ≤ (0:ℤ))) ∧
    (emptyEnv.now ≤ (0:ℤ) ∧ (∀ x ∈ emptyEnv.resumedLog, x ≤ (0:ℤ)) ∧
      (∀ e ∈ emptyEnv.queue, (0:ℤ) < e.due → e ∈ emptyEnv.queue)) :=
  ⟨⟨by decide, by decide⟩,
   @run_until_respects_horizon ℤ _ 1 0 emptyEnv emptyEnv (by decide) (by decide) rfl⟩

/-- C2: repeatedly calling `pop_next()` returns events in non-decreasing due
time, and among equal due times in ascending sequence id; since every
`schedule` call appends an event stamped with the next sequence id, equal due
times come back in insertion order. -/
theorem pop_next_sorted_stable :
    (∀ q : List (Event K), (drain q).Pairwise evLE) ∧
    (∀ (d : K) (c : Cont K) (s s' : SimState K), schedule d c s = .ok s' →
      s'.queue = s.queue ++ [⟨s.now + d, s.nextSeq, c⟩] ∧ s'.nextSeq = s.nextSeq + 1) := by
  constructor
  · exact drain_pairwise
  · intro d c s s' h
    obtain ⟨rfl, -⟩ := schedule_ok h
    exact ⟨rfl, rfl⟩

/-- Witness for C2 at a concrete queue and a concrete schedule call. -/
theorem pop_next_sorted_stable_witness :
    (drain qW).Pairwise evLE ∧
    schedule (3:ℤ) Cont.restockFinish emptyEnv = .ok (pushEvent 3 Cont.restockFinish emptyEnv) ∧
    ((pushEvent (3:ℤ) Cont.restockFinish emptyEnv).queue
        = emptyEnv.queue ++ [⟨emptyEnv.now + 3, emptyEnv.nextSeq, Cont.restockFinish⟩] ∧
      (pushEvent (3:ℤ) Cont.restockFinish emptyEnv).nextSeq = emptyEnv.nextSeq + 1) :=
  ⟨pop_next_sorted_stable.1 qW, rfl,
   pop_next_sorted_stable.2 3 Cont.restockFinish emptyEnv _ rfl⟩

/-- C3: the register pool never has more slots in use than its capacity —
preserved by every single resumed step and by every whole run — and the pool
is FIFO: a release with at least one waiter dequeues exactly the head of the
wait queue (the earliest enqueued) and grants it the slot at the same
instant, while a request finding the pool full enqueues at the tail. -/
theorem resource_capacity_fifo :
    (∀ (fuel : ℕ) (T : K) (s s' : SimState K), s.caja.in_use ≤ s.caja.capacity →
      runUntil fuel T s = .ok s' → s'.caja.in_use ≤ s'.caja.capacity) ∧
    (∀ (c : Cont K) (s s' : SimState K), s.caja.in_use ≤ s.caja.capacity →
      resume c s = .ok s' → s'.caja.in_use ≤ s'.caja.capacity) ∧
    (∀ (s : SimState K) (n : ℕ) (ll : K) (ws : List (ℕ × K)),
      s.caja.wait_queue = (n, ll) :: ws →
      (releaseCaja s).caja.wait_queue = ws ∧
      (releaseCaja s).caja.in_use = s.caja.in_use ∧
      (releaseCaja s).queue = s.queue ++ [⟨s.now + 0, s.nextSeq, Cont.custAcquired n ll⟩]) ∧
    (∀ (n : ℕ) (s : SimState K), ¬ s.caja.in_use < s.caja.capacity →
      resume (Cont.custStart n) s =
        .ok { s with caja := { s.caja with
                wait_queue := s.caja.wait_queue ++ [(n, s.now)] } }) := by
  refine ⟨fun fuel T s s' h1 h2 => runUntil_in_use h1 h2,
          fun c s s' h1 h2 => resume_ok_in_use h1 h2,
          fun s n ll ws h => releaseCaja_fifo s n ll ws h,
          fun n s h => ?_⟩
  simp only [resume]
  rw [if_neg h]

/-- Witness for C3 at concrete environments. -/
theorem resource_capacity_fifo_witness :
    (emptyEnv.caja.in_use ≤ emptyEnv.caja.capacity ∧
      emptyEnv.caja.in_use ≤ emptyEnv.caja.capacity) ∧
    (waitEnv.caja.in_use ≤ waitEnv.caja.capacity ∧
      (atenderFinish (0:ℤ) waitEnv).caja.in_use ≤ (atenderFinish (0:ℤ) waitEnv).caja.capacity) ∧
    (waitEnv.caja.wait_queue = (2, 1) :: [] ∧
      (releaseCaja waitEnv).caja.wait_queue = [] ∧
      (releaseCaja waitEnv).caja.in_use = waitEnv.caja.in_use ∧
      (releaseCaja waitEnv).queue
        = waitEnv.queue ++ [⟨waitEnv.now + 0, waitEnv.nextSeq, Cont.custAcquired 2 1⟩]) ∧
    (¬ waitEnv.caja.in_use < waitEnv.caja.capacity ∧
      resume (Cont.custStart 3) waitEnv =
        .ok { waitEnv with caja := { waitEnv.caja with
                wait_queue := waitEnv.caja.wait_queue ++ [(3, waitEnv.now)] } }) :=
  ⟨⟨by decide, resource_capacity_fifo.1 0 0 emptyEnv emptyEnv (by decide) rfl⟩,
   ⟨by decide, resource_capacity_fifo.2.1 (Cont.custFinish 1 0) waitEnv _ (by decide) rfl⟩,
   ⟨rfl, resource_capacity_fifo.2.2.1 waitEnv 2 1 [] rfl⟩,
   ⟨by decide, resource_capacity_fifo.2.2.2 3 waitEnv (by decide)⟩⟩

/-- C4: two environments built from identical parameters and identical
injected draw streams, run for the same horizon, report identical served
counts, identical unserved counts and identical wait-time sample
sequences. -/
theorem two_run_determinism (p : SimParams K) (a srv : ℕ → K) (fuel : ℕ)
    (s1 s2 : SimState K) (h1 : s1 = initSim p a srv) (h2 : s2 = initSim p a srv) :
    okProj (fun s => s.tienda.clientes_atendidos) (runUntil fuel p.tiempo_simulacion s1)
      = okProj (fun s => s.tienda.clientes_atendidos) (runUntil fuel p.tiempo_simulacion s2) ∧
    okProj (fun s => s.tienda.clientes_sin_stock) (runUntil fuel p.tiempo_simulacion s1)
      = okProj (fun s => s.tienda.clientes_sin_stock) (runUntil fuel p.tiempo_simulacion s2) ∧
    okProj (fun s => s.tienda.tiempos_espera) (runUntil fuel p.tiempo_simulacion s1)
      = okProj (fun s => s.tienda.tiempos_espera) (runUntil fuel p.tiempo_simulacion s2) := by
  subst h1; subst h2
  exact ⟨rfl, rfl, rfl⟩

/-- Witness for C4 on the Scenario A environment. -/
theorem two_run_determinism_witness :
    (initSim paramsA drawsAarr drawsAsrv = initSim paramsA drawsAarr drawsAsrv) ∧
    okProj (fun s => s.tienda.tiempos_espera)
        (runUntil 12 paramsA.tiempo_simulacion (initSim paramsA drawsAarr drawsAsrv))
      = okProj (fun s => s.tienda.tiempos_espera)
        (runUntil 12 paramsA.tiempo_simulacion (initSim paramsA drawsAarr drawsAsrv)) :=
  ⟨rfl, (two_run_determinism paramsA drawsAarr drawsAsrv 12 _ _ rfl rfl).2.2⟩

/-- C5: in Scenario A (one register, unlimited stock, customers arriving at
t = 0 and t = 1, service time 5 for both) customers begin service in arrival
order — the "comienza" log is customer 1 at t = 0 then customer 2 at t = 5 —
so customer 2 starts service at t = 5 and its recorded wait time is 4. -/
theorem scenario_a_wait_four :
    okProj (fun s => s.tienda.empieza_log) scenarioA = some [(1, 0), (2, 5)] ∧
    okProj (fun s => s.tienda.tiempos_espera) scenarioA = some [0, 4] ∧
    okProj (fun s => s.tienda.clientes_atendidos) scenarioA = some 2 :=
  ⟨by decide, by decide, by decide⟩

/-- C6: a customer that acquires the register while the stock is 0 is
counted unserved (both counters up by one), consumes no service draw, leaves
the clock untouched, and the register is released within the same atomic
step (`releasedFrom`); every event this step schedules is due at the current
instant and none of them is a service-finish event, so zero simulated service
time elapses.  The served exit path (`atenderFinish`) also ends in a release,
so the request is released on all exit paths. -/
theorem sin_stock_no_service (n : ℕ) (ll : K) (s : SimState K)
    (hstock : s.tienda.stock = 0) :
    resume (Cont.custAcquired n ll) s = .ok (releaseCaja (maybeRestock (sinStockState n ll s))) ∧
    (releaseCaja (maybeRestock (sinStockState n ll s))).tienda.clientes_sin_stock
      = s.tienda.clientes_sin_stock + 1 ∧
    (releaseCaja (maybeRestock (sinStockState n ll s))).tienda.veces_sin_stock
      = s.tienda.veces_sin_stock + 1 ∧
    (releaseCaja (maybeRestock (sinStockState n ll s))).serviceIdx = s.serviceIdx ∧
    (releaseCaja (maybeRestock (sinStockState n ll s))).now = s.now ∧
    releasedFrom s.caja (releaseCaja (maybeRestock (sinStockState n ll s))).caja ∧
    (∀ e ∈ (releaseCaja (maybeRestock (sinStockState n ll s))).queue,
      e ∈ s.queue ∨ e.due = s.now) ∧
    (∀ e ∈ (releaseCaja (maybeRestock (sinStockState n ll s))).queue,
      ∀ m ll2, e.cont = Cont.custFinish m ll2 → e ∈ s.queue) ∧
    (∀ (t : SimState K) (ll2 : K), releasedFrom t.caja (atenderFinish ll2 t).caja) := by
  have h0 : ¬ 0 < s.tienda.stock := by rw [hstock]; exact lt_irrefl 0
  have hcaja : (maybeRestock (sinStockState n ll s)).caja = s.caja := by
    rw [maybeRestock_caja]; rfl
  have hqcases : ∀ e ∈ (releaseCaja (maybeRestock (sinStockState n ll s))).queue,
      e ∈ s.queue ∨ e.due = s.now := by
    intro e he
    rcases releaseCaja_queue_cases _ e he with he' | ⟨hd, -⟩
    · rcases maybeRestock_queue_cases _ e he' with he'' | ⟨hd, -⟩
      · exact Or.inl he''
      · exact Or.inr hd
    · rw [maybeRestock_now] at hd
      exact Or.inr hd
  refine ⟨?_, ?_, ?_, ?_, ?_, ?_, hqcases, ?_, ?_⟩
  · simp only [resume, atenderAcquired]
    rw [if_neg h0]
    rfl
  · rw [releaseCaja_tienda, maybeRestock_tienda]; rfl
  · rw [releaseCaja_tienda, maybeRestock_tienda]; rfl
  · rw [releaseCaja_serviceIdx, maybeRestock_nextSeq_queue]; rfl
  · rw [releaseCaja_now, maybeRestock_now]; rfl
  · have := releaseCaja_released (maybeRestock (sinStockState n ll s))
    rwa [hcaja] at this
  · intro e he m ll2 hcont
    rcases releaseCaja_queue_cases _ e he with he' | ⟨-, m2, ll3, hc2⟩
    · rcases maybeRestock_queue_cases _ e he' with he'' | ⟨-, hc2⟩
      · exact he''
      · rw [hcont] at hc2; cases hc2
    · rw [hcont] at hc2; cases hc2
  · intro t ll2
    have := releaseCaja_released (maybeRestock
      ({ t with tienda := { t.tienda with
          clientes_atendidos := t.tienda.clientes_atendidos + 1,
          tiempos_total := t.tienda.tiempos_total ++ [t.now - ll2] } }))
    rw [maybeRestock_caja] at this
    exact this

/-- Witness for C6 at a concrete zero-stock environment. -/
theorem sin_stock_no_service_witness :
    noStockEnv.tienda.stock = 0 ∧
    resume (Cont.custAcquired 1 0) noStockEnv
      = .ok (releaseCaja (maybeRestock (sinStockState 1 0 noStockEnv))) ∧
    (releaseCaja (maybeRestock (sinStockState 1 0 noStockEnv))).serviceIdx
      = noStockEnv.serviceIdx :=
  ⟨rfl, (sin_stock_no_service 1 0 noStockEnv rfl).1,
   (sin_stock_no_service 1 0 noStockEnv rfl).2.2.2.1⟩

/-- C7: a restock process starting at the current instant schedules its
completion exactly `tiempo_reabastecimiento` later (its only effect is that
one event, given the non-negative delay the input layer validates);
completion adds exactly the configured lot size to the stock and increments
the restock counter by one, changing nothing else; and in Scenario C
(stock 5, threshold 10, a single arrival) exactly one restock happens and
the final stock is 5 - 1 + 50 = 54. -/
theorem restock_exact (s : SimState K) (hd : 0 ≤ s.tienda.tiempo_reabastecimiento) :
    (resume Cont.restockStart s
      = .ok (pushEvent s.tienda.tiempo_reabastecimiento Cont.restockFinish s) ∧
     (pushEvent s.tienda.tiempo_reabastecimiento Cont.restockFinish s).queue
      = s.queue ++ [⟨s.now + s.tienda.tiempo_reabastecimiento, s.nextSeq, Cont.restockFinish⟩]) ∧
    (∀ t : SimState K,
      resume Cont.restockFinish t = .ok ({ t with tienda := { t.tienda with
          stock := t.tienda.stock + t.tienda.lote_reabastecimiento,
          reabastecimientos := t.tienda.reabastecimientos + 1 } })) ∧
    (okProj (fun u => u.tienda.reabastecimientos) scenarioC = some 1 ∧
     okProj (fun u => u.tienda.stock) scenarioC = some 54) := by
  refine ⟨⟨?_, rfl⟩, fun t => rfl, by decide, by decide⟩
  simp only [resume, schedule]
  rw [if_neg (not_lt.mpr hd)]

/-- Witness for C7 at a concrete environment with restock delay 15. -/
theorem restock_exact_witness :
    (0:ℤ) ≤ emptyEnv.tienda.tiempo_reabastecimiento ∧
    resume Cont.restockStart emptyEnv
      = .ok (pushEvent emptyEnv.tienda.tiempo_reabastecimiento Cont.restockFinish emptyEnv) :=
  ⟨by decide, (restock_exact emptyEnv (by decide)).1.1⟩

/-- C8: running a fresh environment that has no scheduled events with
`until = 0` terminates immediately with the state unchanged: the clock stays
exactly 0 and no process is ever resumed (the ghost log of resumed events
stays empty). -/
theorem run_zero_fresh (fuel : ℕ) :
    runUntil fuel 0 emptyEnv = .ok emptyEnv ∧
    emptyEnv.now = 0 ∧ emptyEnv.resumedLog = [] := by
  refine ⟨?_, rfl, rfl⟩
  cases fuel <;> rfl

/-- Witness for C8 at a concrete fuel bound. -/
theorem run_zero_fresh_witness :
    runUntil 5 0 emptyEnv = .ok emptyEnv ∧
    emptyEnv.now = 0 ∧ emptyEnv.resumedLog = [] :=
  run_zero_fresh 5

/-- C9: `schedule(delay, continuation)` fails with `InvalidDelay` exactly
when the delay is negative; otherwise it succeeds and inserts an event at
`now + delay`.  An `InvalidDelay` raised while a continuation is being
resumed aborts the whole run at once: `run` returns that error to the caller
instead of swallowing it. -/
theorem schedule_invalid_delay :
    (∀ (d : K) (c : Cont K) (s : SimState K),
      schedule d c s = .error SimError.invalidDelay ↔ d < 0) ∧
    (∀ (d : K) (c : Cont K) (s : SimState K), 0 ≤ d →
      schedule d c s = .ok (pushEvent d c s)) ∧
    (∀ (fuel : ℕ) (T : K) (s : SimState K) (e : Event K) (rest : List (Event K))
        (err : SimError),
      popNext s.queue = some (e, rest) → ¬ T < e.due →
      resume e.cont ({ s with queue := rest, now := e.due, resumedLog := s.resumedLog ++ [e.due] }) = .error err →
      runUntil (fuel + 1) T s = .error err) := by
  refine ⟨fun d c s => ?_, fun d c s hd => ?_,
          fun fuel T s e rest err hpop hdue hres => ?_⟩
  · unfold schedule
    split
    · simpa using (by assumption : d < 0)
    · constructor
      · intro h; exact absurd h (by simp)
      · intro h; exact absurd h (by assumption)
  · unfold schedule
    rw [if_neg (not_lt.mpr hd)]
  · simp only [runUntil]
    rw [hpop]
    dsimp
    rw [if_neg hdue, hres]

/-- Witness for C9: a negative delay is rejected, a non-negative one is
inserted, and the failing restock delay aborts the run. -/
theorem schedule_invalid_delay_witness :
    schedule (-1:ℤ) Cont.restockFinish emptyEnv = .error SimError.invalidDelay ∧
    ((0:ℤ) ≤ 3 ∧
      schedule (3:ℤ) Cont.restockStart emptyEnv = .ok (pushEvent 3 Cont.restockStart emptyEnv)) ∧
    (popNext badEnv.queue = some (⟨0, 0, Cont.restockStart⟩, []) ∧ ¬ (5:ℤ) < (0:ℤ) ∧
      runUntil 3 5 badEnv = .error SimError.invalidDelay) :=
  ⟨(schedule_invalid_delay.1 (-1) Cont.restockFinish emptyEnv).mpr (by decide),
   ⟨by decide, schedule_invalid_delay.2.1 3 Cont.restockStart emptyEnv (by decide)⟩,
   ⟨rfl, by decide,
    schedule_invalid_delay.2.2 2 5 badEnv ⟨0, 0, Cont.restockStart⟩ [] SimError.invalidDelay
      rfl (by decide) (by rfl)⟩⟩

/-- C10: `veces_sin_stock` and `clientes_sin_stock` both start at 0 in a
fresh store, and their equality is preserved by every resumed step (they are
only ever incremented together, in the out-of-stock branch) and by every
whole run, so the two separately reported metrics always carry the same
value. -/
theorem veces_equals_clientes_sin_stock :
    (∀ p : SimParams K,
      (initTienda p).veces_sin_stock = 0 ∧ (initTienda p).clientes_sin_stock = 0) ∧
    (∀ (c : Cont K) (s s' : SimState K),
      s.tienda.veces_sin_stock = s.tienda.clientes_sin_stock →
      resume c s = .ok s' →
      s'.tienda.veces_sin_stock = s'.tienda.clientes_sin_stock) ∧
    (∀ (fuel : ℕ) (T : K) (s s' : SimState K),
      s.tienda.veces_sin_stock = s.tienda.clientes_sin_stock →
      runUntil fuel T s = .ok s' →
      s'.tienda.veces_sin_stock = s'.tienda.clientes_sin_stock) :=
  ⟨fun _ => ⟨rfl, rfl⟩,
   fun _ _ _ h1 h2 => resume_ok_sin_stock h1 h2,
   fun _ _ _ _ h1 h2 => runUntil_sin_stock h1 h2⟩

/-- Witness for C10 on the Scenario C run. -/
theorem veces_equals_clientes_sin_stock_witness :
    ((initSim paramsC drawsCarr drawsCsrv).tienda.veces_sin_stock
      = (initSim paramsC drawsCarr drawsCsrv).tienda.clientes_sin_stock) ∧
    okProj (fun u => u.tienda.veces_sin_stock) scenarioC
      = okProj (fun u => u.tienda.clientes_sin_stock) scenarioC := by
  refine ⟨rfl, ?_⟩
  cases hrun : scenarioC with
  | error e => rfl
  | ok sfin =>
    have := veces_equals_clientes_sin_stock.2.2 10 paramsC.tiempo_simulacion
      (initSim paramsC drawsCarr drawsCsrv) sfin rfl hrun
    simp [okProj, this]

end Tienda
